import Mathlib

/-!
Shallow embedding of mypy's fswatcher module (src/mypy/fswatcher.py).

Modelling choices:

* Paths are strings. `st_mtime` is a Python float compared only for
  (in)equality by the watcher, so it is modelled as an `Int`; `st_size` is an
  `Int`; md5 digests are strings.
* The external filesystem accessor (`FileSystemCache` in the source) is a pair
  of pure functions `stat` and `md5` returning `Except FsError _`.  Purity
  models the accessor answering consistently within (and across) poll passes
  unless it is flushed; a different accessor value models a filesystem change.
  `FsError.fileNotFound` models Python's `FileNotFoundError`; `FsError.other`
  models every other exception (I/O error, permission error, ...).
* `_file_data` (a Python dict from path to `Optional[FileData]`) is an
  association list `FDMap`; `FDMap.find` is dictionary lookup, `FDMap.set` is
  dictionary assignment, `FDMap.erase` is `del`.  The Python sentinel `None`
  (no snapshot / Absent) is `Option.none` in the stored value.
* `_paths` (a Python set of strings) is a duplicate-free list; `find_changed`
  iterates over it in list order (Python set iteration order is arbitrary and
  no claim depends on it).
* In the source, `find_changed` evaluates `self._file_data[path]`, which
  raises `KeyError` for a watched path without a snapshot entry; such a state
  is unreachable (every operation keeps watched paths ⊆ snapshot keys), and
  the embedding reads a missing entry as Absent via `getD none`.
* Python exceptions escaping `find_changed` abort the pass but leave the
  in-place mutations already made to `self._file_data`; `find_changed`
  therefore returns `Except (FsError × _) _`, carrying the partially updated
  state on the error path exactly as the mutated object would hold it.
-/

/-- FileData from fswatcher.py: NamedTuple of st_mtime, st_size, md5. -/
structure FileData where
  st_mtime : Int
  st_size : Int
  md5 : String
deriving DecidableEq, Inhabited

/-- Stat result returned by the filesystem accessor: size and modification
time, the two fields of `os.stat_result` that fswatcher.py reads. -/
structure StatResult where
  st_mtime : Int
  st_size : Int
deriving DecidableEq, Inhabited

/-- Failure of a filesystem accessor query: `fileNotFound` models Python's
`FileNotFoundError` (the only exception fswatcher.py catches); `other` models
any other exception, carrying an opaque description. -/
inductive FsError where
  | fileNotFound : FsError
  | other : String → FsError
deriving DecidableEq, Inhabited

/-- The external filesystem accessor (`FileSystemCache` in the source),
modelled as pure query functions: `stat` and `md5` by path. -/
structure FileSystemCache where
  stat : String → Except FsError StatResult
  md5 : String → Except FsError String

/-- Snapshot map: models the Python dict `_file_data : Dict[str,
Optional[FileData]]` as an association list.  A stored value of `none` is the
Python `None` sentinel (path watched, no snapshot). -/
abbrev FDMap := List (String × Option FileData)

/-- Dictionary lookup: `some v` when the key is present with value `v`,
`none` when the key is absent. -/
def FDMap.find : FDMap → String → Option (Option FileData)
  | [], _ => none
  | e :: rest, x => if e.1 = x then some e.2 else FDMap.find rest x

/-- Dictionary deletion (`del d[k]`, a no-op when the key is absent, matching
the guarded `del` in remove_watched_paths). -/
def FDMap.erase (m : FDMap) (k : String) : FDMap :=
  m.filter (fun e => e.1 ≠ k)

/-- Dictionary assignment `d[k] = v`. -/
def FDMap.set (m : FDMap) (k : String) (v : Option FileData) : FDMap :=
  (k, v) :: FDMap.erase m k

/-- Key set of the snapshot map. -/
def FDMap.keys (m : FDMap) : Finset String :=
  (m.map Prod.fst).toFinset

/-- State of a FileSystemWatcher: the watched-path set `_paths` (a
duplicate-free list modelling a Python set) and the snapshot dict
`_file_data`.  The accessor `fs` is passed to the operations explicitly
rather than stored, since it holds functions. -/
structure FileSystemWatcher where
  _paths : List String
  _file_data : FDMap
deriving DecidableEq

/-- A freshly constructed watcher: empty watched set, empty snapshot dict. -/
def FileSystemWatcher.init : FileSystemWatcher :=
  { _paths := [], _file_data := [] }

/-- set_file_data: `self._file_data[path] = data`. -/
def set_file_data (w : FileSystemWatcher) (path : String) (data : FileData) :
    FileSystemWatcher :=
  { w with _file_data := FDMap.set w._file_data path (some data) }

/-- add_watched_paths: for each path not already watched, store `None` so it
gets reported as changed by find_changed if it exists; then union the paths
into `_paths` (the membership tests all read the pre-call `_paths`, exactly
as the Python loop does). -/
def add_watched_paths (w : FileSystemWatcher) (paths : List String) :
    FileSystemWatcher :=
  { _paths := w._paths ++ (paths.filter (fun p => p ∉ w._paths)).dedup,
    _file_data :=
      paths.foldl
        (fun m p => if p ∈ w._paths then m else FDMap.set m p none)
        w._file_data }

/-- remove_watched_paths: delete each path's snapshot entry (if present) and
remove the paths from `_paths`. -/
def remove_watched_paths (w : FileSystemWatcher) (paths : List String) :
    FileSystemWatcher :=
  { _paths := w._paths.filter (fun p => p ∉ paths),
    _file_data := paths.foldl (fun m p => FDMap.erase m p) w._file_data }

/-- The private helper `_update`: one stat query, one md5 query, and a whole
new `FileData` from their results.  Any accessor failure propagates and
nothing is written. -/
def _update (fs : FileSystemCache) (path : String) : Except FsError FileData :=
  match fs.stat path with
  | .error e => .error e
  | .ok st =>
    match fs.md5 path with
    | .error e => .error e
    | .ok md5 => .ok { st_mtime := st.st_mtime, st_size := st.st_size, md5 := md5 }

/-- Outcome of processing one watched path inside find_changed:
`report v` = write snapshot value `v` and add the path to the changed set;
`writeOnly v` = write `v` without reporting (metadata changed but size and
hash match); `noop` = no write, no report; `fail e` = an uncaught accessor
failure aborts the pass. -/
inductive StepResult where
  | report : Option FileData → StepResult
  | writeOnly : Option FileData → StepResult
  | noop : StepResult
  | fail : FsError → StepResult
deriving DecidableEq

/-- The body of find_changed's per-path loop iteration, given the stored
snapshot `old` for the path.  Mirrors the source branch for branch:
stat raising FileNotFoundError is caught (deletion handling); `old = none`
is the new-file branch (report, then full `_update`); otherwise the
size/mtime fast path decides whether to hash, and a changed file is reported
only when size or md5 actually differ. -/
def find_changed_step (fs : FileSystemCache) (path : String)
    (old : Option FileData) : StepResult :=
  match fs.stat path with
  | .error .fileNotFound =>
    match old with
    | some _ => .report none
    | none => .noop
  | .error e => .fail e
  | .ok st =>
    match old with
    | none =>
      match _update fs path with
      | .error e => .fail e
      | .ok fd => .report (some fd)
    | some o =>
      if st.st_size ≠ o.st_size ∨ st.st_mtime ≠ o.st_mtime then
        match fs.md5 path with
        | .error e => .fail e
        | .ok new_md5 =>
          match _update fs path with
          | .error e => .fail e
          | .ok fd =>
            if st.st_size ≠ o.st_size ∨ new_md5 ≠ o.md5 then .report (some fd)
            else .writeOnly (some fd)
      else .noop

/-- The find_changed loop over the remaining watched paths, threading the
snapshot dict and the changed set.  On an uncaught failure the pass aborts,
returning the error together with the dict as mutated so far (the path being
processed has not been written). -/
def find_changed_aux (fs : FileSystemCache) :
    List String → FDMap → Finset String →
    Except (FsError × FDMap) (Finset String × FDMap)
  | [], m, changed => .ok (changed, m)
  | path :: rest, m, changed =>
    match find_changed_step fs path ((FDMap.find m path).getD none) with
    | .report v => find_changed_aux fs rest (FDMap.set m path v) (insert path changed)
    | .writeOnly v => find_changed_aux fs rest (FDMap.set m path v) changed
    | .noop => find_changed_aux fs rest m changed
    | .fail e => .error (e, m)

/-- find_changed: return the set of watched paths changed since the last
call, updating snapshots along the way.  On success: the changed set and the
updated watcher.  On an uncaught accessor failure: the error and the watcher
with the mutations made before the failure. -/
def find_changed (fs : FileSystemCache) (w : FileSystemWatcher) :
    Except (FsError × FileSystemWatcher) (Finset String × FileSystemWatcher) :=
  match find_changed_aux fs w._paths w._file_data ∅ with
  | .ok (c, m) => .ok (c, { w with _file_data := m })
  | .error (e, m) => .error (e, { w with _file_data := m })

/-- Instrumented `_update`: same result, plus the number of stat queries and
md5 queries it issues (in that order). -/
def _update_counted (fs : FileSystemCache) (path : String) :
    Except FsError FileData × Nat × Nat :=
  match fs.stat path with
  | .error e => (.error e, 1, 0)
  | .ok st =>
    match fs.md5 path with
    | .error e => (.error e, 1, 1)
    | .ok md5 =>
      (.ok { st_mtime := st.st_mtime, st_size := st.st_size, md5 := md5 }, 1, 1)

/-- Instrumented per-path loop body: same `StepResult` as
`find_changed_step`, plus the number of stat queries and md5 queries issued
for this path during the poll (each accessor call site counts one). -/
def find_changed_step_counted (fs : FileSystemCache) (path : String)
    (old : Option FileData) : StepResult × Nat × Nat :=
  match fs.stat path with
  | .error .fileNotFound =>
    match old with
    | some _ => (.report none, 1, 0)
    | none => (.noop, 1, 0)
  | .error e => (.fail e, 1, 0)
  | .ok st =>
    match old with
    | none =>
      match _update_counted fs path with
      | (.error e, s, h) => (.fail e, 1 + s, h)
      | (.ok fd, s, h) => (.report (some fd), 1 + s, h)
    | some o =>
      if st.st_size ≠ o.st_size ∨ st.st_mtime ≠ o.st_mtime then
        match fs.md5 path with
        | .error e => (.fail e, 1, 1)
        | .ok new_md5 =>
          match _update_counted fs path with
          | (.error e, s, h) => (.fail e, 1 + s, 1 + h)
          | (.ok fd, s, h) =>
            (if st.st_size ≠ o.st_size ∨ new_md5 ≠ o.md5 then
              StepResult.report (some fd)
             else StepResult.writeOnly (some fd), 1 + s, 1 + h)
      else (.noop, 1, 0)

/-- The stored snapshot for a path agrees with what the accessor currently
reports: a missing file has no snapshot; an existing file has a Present
snapshot whose size and mtime match the current stat result.  Every
successful poll leaves every watched path in this state, and a path in this
state is left untouched (and unreported) by the next poll. -/
def consistent (fs : FileSystemCache) (path : String) (old : Option FileData) :
    Prop :=
  match fs.stat path, old with
  | .error .fileNotFound, none => True
  | .ok st, some fd => fd.st_size = st.st_size ∧ fd.st_mtime = st.st_mtime
  | _, _ => False

deriving instance DecidableEq for Except

/-- The spec's lock-step invariant: the snapshot map's key set equals the
watched set. -/
abbrev lockstep (w : FileSystemWatcher) : Prop :=
  FDMap.keys w._file_data = w._paths.toFinset

/-! ### Concrete paths, file data and accessors used to instantiate the
general theorems on closed inputs -/

/-- Example path. -/
def pA : String := "a"

/-- Second example path. -/
def pB : String := "b"

/-- Example digest of the old file content. -/
def hash1 : String := "h1"

/-- Example digest of the new file content. -/
def hash2 : String := "h2"

/-- Example I/O failure (not a file-not-found condition). -/
def eIO : FsError := FsError.other ("io")

/-- Old snapshot: mtime 0, size 10, digest hash1. -/
def fdOld : FileData := { st_mtime := 0, st_size := 10, md5 := hash1 }

/-- New snapshot: mtime 5, size 10, digest hash2. -/
def fdNew : FileData := { st_mtime := 5, st_size := 10, md5 := hash2 }

/-- Stat of the touched file: mtime 5, size 10. -/
def stA : StatResult := { st_mtime := 5, st_size := 10 }

/-- Stat equal to the old snapshot's metadata: mtime 0, size 10. -/
def stSame : StatResult := { st_mtime := 0, st_size := 10 }

/-- Accessor: pA exists with stat stA and digest hash2; everything else is
missing. -/
def fsA : FileSystemCache :=
  { stat := fun p => if p = pA then .ok stA else .error .fileNotFound,
    md5 := fun p => if p = pA then .ok hash2 else .error .fileNotFound }

/-- Accessor: pA exists with metadata equal to fdOld and digest hash1;
everything else is missing. -/
def fsSame : FileSystemCache :=
  { stat := fun p => if p = pA then .ok stSame else .error .fileNotFound,
    md5 := fun p => if p = pA then .ok hash1 else .error .fileNotFound }

/-- Accessor: every path is missing. -/
def fsGone : FileSystemCache :=
  { stat := fun _ => .error .fileNotFound,
    md5 := fun _ => .error .fileNotFound }

/-- Accessor: pA stats fine but hashing it fails with an I/O error. -/
def fsErr : FileSystemCache :=
  { stat := fun p => if p = pA then .ok stA else .error .fileNotFound,
    md5 := fun _ => .error eIO }

/-- Watcher watching pA with the old Present snapshot. -/
def wOld : FileSystemWatcher := { _paths := [pA], _file_data := [(pA, some fdOld)] }

/-- Watcher watching pA with the new Present snapshot. -/
def wNew : FileSystemWatcher := { _paths := [pA], _file_data := [(pA, some fdNew)] }

/-- Watcher watching pA with an Absent snapshot. -/
def wAbsent : FileSystemWatcher := { _paths := [pA], _file_data := [(pA, none)] }

/-! ### Basic association-list lemmas -/

theorem FDMap.find_erase (m : FDMap) (k x : String) :
    FDMap.find (FDMap.erase m k) x = if x = k then none else FDMap.find m x := by
  induction m with
  | nil => simp [FDMap.erase, FDMap.find]
  | cons e rest ih =>
    by_cases hek : e.1 = k <;> by_cases hex : e.1 = x <;> by_cases hxk : x = k <;>
      simp_all [FDMap.erase, FDMap.find]

theorem FDMap.find_set (m : FDMap) (k x : String) (v : Option FileData) :
    FDMap.find (FDMap.set m k v) x = if x = k then some v else FDMap.find m x := by
  by_cases h : x = k
  · subst h; simp [FDMap.set, FDMap.find]
  · simp [FDMap.set, FDMap.find, FDMap.find_erase, h, Ne.symm h]

theorem FDMap.mem_keys (m : FDMap) (x : String) :
    x ∈ FDMap.keys m ↔ (FDMap.find m x).isSome := by
  induction m with
  | nil => simp [FDMap.keys, FDMap.find]
  | cons e rest ih =>
    simp only [FDMap.keys, List.map_cons, List.toFinset_cons, Finset.mem_insert] at ih ⊢
    by_cases hex : e.1 = x
    · simp [FDMap.find, hex]
    · have hxe : ¬x = e.1 := fun hh => hex hh.symm
      simp [FDMap.find, hex, hxe, ih]

theorem FDMap.mem_keys_set (m : FDMap) (k x : String) (v : Option FileData) :
    x ∈ FDMap.keys (FDMap.set m k v) ↔ x = k ∨ x ∈ FDMap.keys m := by
  by_cases h : x = k <;> simp [FDMap.mem_keys, FDMap.find_set, h]

theorem FDMap.mem_keys_erase (m : FDMap) (k x : String) :
    x ∈ FDMap.keys (FDMap.erase m k) ↔ x ∈ FDMap.keys m ∧ x ≠ k := by
  by_cases h : x = k <;> simp [FDMap.mem_keys, FDMap.find_erase, h]

/-! ### The find_changed loop: paths not being processed are untouched -/

theorem find_changed_aux_skip (fs : FileSystemCache) (q : String) :
    ∀ (l : List String), q ∉ l → ∀ (m : FDMap) (c c' : Finset String) (m' : FDMap),
    find_changed_aux fs l m c = .ok (c', m') →
    FDMap.find m' q = FDMap.find m q ∧ (q ∈ c' ↔ q ∈ c) := by
  intro l
  induction l with
  | nil =>
    intro _ m c c' m' h
    simp only [find_changed_aux, Except.ok.injEq, Prod.mk.injEq] at h
    obtain ⟨h1, h2⟩ := h
    subst h1; subst h2
    exact ⟨rfl, Iff.rfl⟩
  | cons p rest ih =>
    intro hq m c c' m' h
    have hqp : q ≠ p := fun hh => hq (hh ▸ List.mem_cons_self p rest)
    have hqr : q ∉ rest := fun hh => hq (List.mem_cons_of_mem p hh)
    rcases hstep : find_changed_step fs p ((FDMap.find m p).getD none) with v | v | _ | e <;>
      rw [find_changed_aux, hstep] at h
    · obtain ⟨h1, h2⟩ := ih hqr _ _ _ _ h
      refine ⟨?_, ?_⟩
      · rw [h1, FDMap.find_set, if_neg hqp]
      · rw [h2]; simp [hqp]
    · obtain ⟨h1, h2⟩ := ih hqr _ _ _ _ h
      exact ⟨by rw [h1, FDMap.find_set, if_neg hqp], h2⟩
    · exact ih hqr _ _ _ _ h
    · exact Except.noConfusion h

theorem find_changed_aux_skip_err (fs : FileSystemCache) (q : String) :
    ∀ (l : List String), q ∉ l → ∀ (m : FDMap) (c : Finset String) (e : FsError) (m' : FDMap),
    find_changed_aux fs l m c = .error (e, m') →
    FDMap.find m' q = FDMap.find m q := by
  intro l
  induction l with
  | nil =>
    intro _ m c e m' h
    exact Except.noConfusion h
  | cons p rest ih =>
    intro hq m c e m' h
    have hqp : q ≠ p := fun hh => hq (hh ▸ List.mem_cons_self p rest)
    have hqr : q ∉ rest := fun hh => hq (List.mem_cons_of_mem p hh)
    rcases hstep : find_changed_step fs p ((FDMap.find m p).getD none) with v | v | _ | e' <;>
      rw [find_changed_aux, hstep] at h
    · rw [ih hqr _ _ _ _ h, FDMap.find_set, if_neg hqp]
    · rw [ih hqr _ _ _ _ h, FDMap.find_set, if_neg hqp]
    · exact ih hqr _ _ _ _ h
    · simp only [Except.error.injEq, Prod.mk.injEq] at h
      obtain ⟨_, h2⟩ := h
      rw [← h2]

/-! ### The find_changed loop: characterization of a processed path -/

theorem find_changed_aux_process (fs : FileSystemCache) (p : String) :
    ∀ (l : List String), l.Nodup → p ∈ l →
    ∀ (m : FDMap) (c c' : Finset String) (m' : FDMap),
    find_changed_aux fs l m c = .ok (c', m') →
    (∀ v, find_changed_step fs p ((FDMap.find m p).getD none) = .report v →
      FDMap.find m' p = some v ∧ p ∈ c') ∧
    (∀ v, find_changed_step fs p ((FDMap.find m p).getD none) = .writeOnly v →
      FDMap.find m' p = some v ∧ (p ∈ c' ↔ p ∈ c)) ∧
    (find_changed_step fs p ((FDMap.find m p).getD none) = .noop →
      FDMap.find m' p = FDMap.find m p ∧ (p ∈ c' ↔ p ∈ c)) ∧
    (∀ e, find_changed_step fs p ((FDMap.find m p).getD none) ≠ .fail e) := by
  intro l
  induction l with
  | nil => intro _ hp; exact absurd hp (List.not_mem_nil p)
  | cons q rest ih =>
    intro hnd hp m c c' m' h
    obtain ⟨hqr, hnd'⟩ := List.nodup_cons.mp hnd
    by_cases hpq : p = q
    · subst hpq
      have hpr : p ∉ rest := hqr
      rcases hstep : find_changed_step fs p ((FDMap.find m p).getD none) with v | v | _ | e <;>
        rw [find_changed_aux, hstep] at h
      · obtain ⟨h1, h2⟩ := find_changed_aux_skip fs p rest hpr _ _ _ _ h
        refine ⟨?_, ?_, ?_, ?_⟩
        · intro v' hv'
          cases hv'
          constructor
          · rw [h1, FDMap.find_set, if_pos rfl]
          · rw [h2]; exact Finset.mem_insert_self p c
        · intro v' hv'; exact StepResult.noConfusion hv'
        · intro hv'; exact StepResult.noConfusion hv'
        · intro e hv'; exact StepResult.noConfusion hv'
      · obtain ⟨h1, h2⟩ := find_changed_aux_skip fs p rest hpr _ _ _ _ h
        refine ⟨?_, ?_, ?_, ?_⟩
        · intro v' hv'; exact StepResult.noConfusion hv'
        · intro v' hv'
          cases hv'
          exact ⟨by rw [h1, FDMap.find_set, if_pos rfl], h2⟩
        · intro hv'; exact StepResult.noConfusion hv'
        · intro e hv'; exact StepResult.noConfusion hv'
      · obtain ⟨h1, h2⟩ := find_changed_aux_skip fs p rest hpr _ _ _ _ h
        refine ⟨?_, ?_, ?_, ?_⟩
        · intro v' hv'; exact StepResult.noConfusion hv'
        · intro v' hv'; exact StepResult.noConfusion hv'
        · intro _; exact ⟨h1, h2⟩
        · intro e hv'; exact StepResult.noConfusion hv'
      · exact Except.noConfusion h
    · have hpr : p ∈ rest := by
        cases List.mem_cons.mp hp with
        | inl hh => exact absurd hh hpq
        | inr hh => exact hh
      have hpq' : p ≠ q := hpq
      rcases hstep : find_changed_step fs q ((FDMap.find m q).getD none) with v | v | _ | e <;>
        rw [find_changed_aux, hstep] at h
      · have hfind : FDMap.find (FDMap.set m q v) p = FDMap.find m p := by
          rw [FDMap.find_set, if_neg hpq']
        obtain ⟨A, B, C, D⟩ := ih hnd' hpr _ _ _ _ h
        rw [hfind] at A B C D
        refine ⟨A, ?_, ?_, D⟩
        · intro v' hv'
          obtain ⟨B1, B2⟩ := B v' hv'
          refine ⟨B1, ?_⟩
          rw [B2]
          simp [hpq']
        · intro hv'
          obtain ⟨C1, C2⟩ := C hv'
          refine ⟨C1, ?_⟩
          rw [C2]
          simp [hpq']
      · have hfind : FDMap.find (FDMap.set m q v) p = FDMap.find m p := by
          rw [FDMap.find_set, if_neg hpq']
        obtain ⟨A, B, C, D⟩ := ih hnd' hpr _ _ _ _ h
        rw [hfind] at A B C D
        exact ⟨A, B, C, D⟩
      · exact ih hnd' hpr _ _ _ _ h
      · exact Except.noConfusion h

/-! ### The find_changed loop: characterization of an aborted pass -/

theorem find_changed_aux_error_spec (fs : FileSystemCache) :
    ∀ (l : List String), l.Nodup →
    ∀ (m : FDMap) (c : Finset String) (e : FsError) (m' : FDMap),
    find_changed_aux fs l m c = .error (e, m') →
    ∃ p, p ∈ l ∧ find_changed_step fs p ((FDMap.find m p).getD none) = .fail e ∧
      FDMap.find m' p = FDMap.find m p := by
  intro l
  induction l with
  | nil => intro _ m c e m' h; exact Except.noConfusion h
  | cons q rest ih =>
    intro hnd m c e m' h
    obtain ⟨hqr, hnd'⟩ := List.nodup_cons.mp hnd
    rcases hstep : find_changed_step fs q ((FDMap.find m q).getD none) with v | v | _ | e' <;>
      rw [find_changed_aux, hstep] at h
    · obtain ⟨p, hpl, hpstep, hpfind⟩ := ih hnd' _ _ _ _ h
      have hpq : p ≠ q := fun hh => hqr (hh ▸ hpl)
      have hfind : FDMap.find (FDMap.set m q v) p = FDMap.find m p := by
        rw [FDMap.find_set, if_neg hpq]
      exact ⟨p, List.mem_cons_of_mem q hpl, by rw [hfind] at hpstep; exact hpstep,
        by rw [hpfind, hfind]⟩
    · obtain ⟨p, hpl, hpstep, hpfind⟩ := ih hnd' _ _ _ _ h
      have hpq : p ≠ q := fun hh => hqr (hh ▸ hpl)
      have hfind : FDMap.find (FDMap.set m q v) p = FDMap.find m p := by
        rw [FDMap.find_set, if_neg hpq]
      exact ⟨p, List.mem_cons_of_mem q hpl, by rw [hfind] at hpstep; exact hpstep,
        by rw [hpfind, hfind]⟩
    · obtain ⟨p, hpl, hpstep, hpfind⟩ := ih hnd' _ _ _ _ h
      exact ⟨p, List.mem_cons_of_mem q hpl, hpstep, hpfind⟩
    · simp only [Except.error.injEq, Prod.mk.injEq] at h
      obtain ⟨h1, h2⟩ := h
      exact ⟨q, List.mem_cons_self q rest, by rw [hstep, h1], by rw [← h2]⟩

/-! ### The find_changed loop: the changed set and the key set -/

theorem find_changed_aux_subset (fs : FileSystemCache) :
    ∀ (l : List String) (m : FDMap) (c c' : Finset String) (m' : FDMap),
    find_changed_aux fs l m c = .ok (c', m') → ∀ x ∈ c', x ∈ c ∨ x ∈ l := by
  intro l
  induction l with
  | nil =>
    intro m c c' m' h x hx
    simp only [find_changed_aux, Except.ok.injEq, Prod.mk.injEq] at h
    exact Or.inl (h.1 ▸ hx)
  | cons q rest ih =>
    intro m c c' m' h x hx
    rcases hstep : find_changed_step fs q ((FDMap.find m q).getD none) with v | v | _ | e <;>
      rw [find_changed_aux, hstep] at h
    · rcases ih _ _ _ _ h x hx with hc | hl
      · rcases Finset.mem_insert.mp hc with hq | hc'
        · exact Or.inr (hq ▸ List.mem_cons_self q rest)
        · exact Or.inl hc'
      · exact Or.inr (List.mem_cons_of_mem q hl)
    · rcases ih _ _ _ _ h x hx with hc | hl
      · exact Or.inl hc
      · exact Or.inr (List.mem_cons_of_mem q hl)
    · rcases ih _ _ _ _ h x hx with hc | hl
      · exact Or.inl hc
      · exact Or.inr (List.mem_cons_of_mem q hl)
    · exact Except.noConfusion h

theorem find_changed_aux_keys_mono (fs : FileSystemCache) :
    ∀ (l : List String) (m : FDMap) (c c' : Finset String) (m' : FDMap),
    find_changed_aux fs l m c = .ok (c', m') →
    ∀ x, x ∈ FDMap.keys m → x ∈ FDMap.keys m' := by
  intro l
  induction l with
  | nil =>
    intro m c c' m' h x hx
    simp only [find_changed_aux, Except.ok.injEq, Prod.mk.injEq] at h
    exact h.2 ▸ hx
  | cons q rest ih =>
    intro m c c' m' h x hx
    rcases hstep : find_changed_step fs q ((FDMap.find m q).getD none) with v | v | _ | e <;>
      rw [find_changed_aux, hstep] at h
    · exact ih _ _ _ _ h x ((FDMap.mem_keys_set m q x v).mpr (Or.inr hx))
    · exact ih _ _ _ _ h x ((FDMap.mem_keys_set m q x v).mpr (Or.inr hx))
    · exact ih _ _ _ _ h x hx
    · exact Except.noConfusion h

theorem find_changed_aux_keys_bound (fs : FileSystemCache) :
    ∀ (l : List String) (m : FDMap) (c c' : Finset String) (m' : FDMap),
    find_changed_aux fs l m c = .ok (c', m') →
    ∀ x, x ∈ FDMap.keys m' → x ∈ FDMap.keys m ∨ x ∈ l := by
  intro l
  induction l with
  | nil =>
    intro m c c' m' h x hx
    simp only [find_changed_aux, Except.ok.injEq, Prod.mk.injEq] at h
    exact Or.inl (h.2 ▸ hx)
  | cons q rest ih =>
    intro m c c' m' h x hx
    rcases hstep : find_changed_step fs q ((FDMap.find m q).getD none) with v | v | _ | e <;>
      rw [find_changed_aux, hstep] at h
    · rcases ih _ _ _ _ h x hx with hk | hl
      · rcases (FDMap.mem_keys_set m q x v).mp hk with hq | hk'
        · exact Or.inr (hq ▸ List.mem_cons_self q rest)
        · exact Or.inl hk'
      · exact Or.inr (List.mem_cons_of_mem q hl)
    · rcases ih _ _ _ _ h x hx with hk | hl
      · rcases (FDMap.mem_keys_set m q x v).mp hk with hq | hk'
        · exact Or.inr (hq ▸ List.mem_cons_self q rest)
        · exact Or.inl hk'
      · exact Or.inr (List.mem_cons_of_mem q hl)
    · rcases ih _ _ _ _ h x hx with hk | hl
      · exact Or.inl hk
      · exact Or.inr (List.mem_cons_of_mem q hl)
    · exact Except.noConfusion h

/-! ### Stabilization: a successful poll leaves every path consistent -/

theorem update_fields (fs : FileSystemCache) (path : String) (st : StatResult)
    (fd : FileData) (hst : fs.stat path = .ok st)
    (hupd : _update fs path = .ok fd) :
    fd.st_size = st.st_size ∧ fd.st_mtime = st.st_mtime := by
  rw [_update, hst] at hupd
  cases hmd5 : fs.md5 path with
  | error e => rw [hmd5] at hupd; exact Except.noConfusion hupd
  | ok md5 => rw [hmd5] at hupd; cases hupd; exact ⟨rfl, rfl⟩

theorem find_changed_step_consistent (fs : FileSystemCache) (path : String)
    (old : Option FileData) :
    (∀ v, find_changed_step fs path old = .report v → consistent fs path v) ∧
    (∀ v, find_changed_step fs path old = .writeOnly v → consistent fs path v) ∧
    (find_changed_step fs path old = .noop → consistent fs path old) := by
  rcases hst : fs.stat path with e | st
  · cases e with
    | fileNotFound =>
      cases old with
      | none =>
        refine ⟨?_, ?_, ?_⟩ <;> simp only [find_changed_step, hst]
        · intro v hv; exact StepResult.noConfusion hv
        · intro v hv; exact StepResult.noConfusion hv
        · intro _; simp [consistent, hst]
      | some fd =>
        refine ⟨?_, ?_, ?_⟩ <;> simp only [find_changed_step, hst]
        · intro v hv; cases hv; simp [consistent, hst]
        · intro v hv; exact StepResult.noConfusion hv
        · intro hv; exact StepResult.noConfusion hv
    | other s =>
      refine ⟨?_, ?_, ?_⟩ <;> simp only [find_changed_step, hst]
      · intro v hv; exact StepResult.noConfusion hv
      · intro v hv; exact StepResult.noConfusion hv
      · intro hv; exact StepResult.noConfusion hv
  · cases old with
    | none =>
      cases hupd : _update fs path with
      | error e =>
        refine ⟨?_, ?_, ?_⟩ <;> simp only [find_changed_step, hst, hupd]
        · intro v hv; exact StepResult.noConfusion hv
        · intro v hv; exact StepResult.noConfusion hv
        · intro hv; exact StepResult.noConfusion hv
      | ok fd =>
        refine ⟨?_, ?_, ?_⟩ <;> simp only [find_changed_step, hst, hupd]
        · intro v hv
          cases hv
          obtain ⟨h1, h2⟩ := update_fields fs path st fd hst hupd
          simp [consistent, hst, h1, h2]
        · intro v hv; exact StepResult.noConfusion hv
        · intro hv; exact StepResult.noConfusion hv
    | some o =>
      by_cases hcond : st.st_size ≠ o.st_size ∨ st.st_mtime ≠ o.st_mtime
      · cases hmd5 : fs.md5 path with
        | error e =>
          refine ⟨?_, ?_, ?_⟩ <;> simp only [find_changed_step, hst, hmd5, if_pos hcond]
          · intro v hv; exact StepResult.noConfusion hv
          · intro v hv; exact StepResult.noConfusion hv
          · intro hv; exact StepResult.noConfusion hv
        | ok new_md5 =>
          cases hupd : _update fs path with
          | error e =>
            refine ⟨?_, ?_, ?_⟩ <;>
              simp only [find_changed_step, hst, hmd5, hupd, if_pos hcond]
            · intro v hv; exact StepResult.noConfusion hv
            · intro v hv; exact StepResult.noConfusion hv
            · intro hv; exact StepResult.noConfusion hv
          | ok fd =>
            obtain ⟨h1, h2⟩ := update_fields fs path st fd hst hupd
            by_cases hrep : st.st_size ≠ o.st_size ∨ new_md5 ≠ o.md5
            · refine ⟨?_, ?_, ?_⟩ <;>
                simp only [find_changed_step, hst, hmd5, hupd, if_pos hcond, if_pos hrep]
              · intro v hv; cases hv; simp [consistent, hst, h1, h2]
              · intro v hv; exact StepResult.noConfusion hv
              · intro hv; exact StepResult.noConfusion hv
            · refine ⟨?_, ?_, ?_⟩ <;>
                simp only [find_changed_step, hst, hmd5, hupd, if_pos hcond, if_neg hrep]
              · intro v hv; exact StepResult.noConfusion hv
              · intro v hv; cases hv; simp [consistent, hst, h1, h2]
              · intro hv; exact StepResult.noConfusion hv
      · refine ⟨?_, ?_, ?_⟩ <;> simp only [find_changed_step, hst, if_neg hcond]
        · intro v hv; exact StepResult.noConfusion hv
        · intro v hv; exact StepResult.noConfusion hv
        · intro _
          push_neg at hcond
          simp [consistent, hst, hcond.1, hcond.2]

theorem consistent_step_noop (fs : FileSystemCache) (path : String)
    (old : Option FileData) (h : consistent fs path old) :
    find_changed_step fs path old = .noop := by
  rcases hst : fs.stat path with e | st
  · cases e with
    | fileNotFound =>
      cases old with
      | none => simp [find_changed_step, hst]
      | some fd => simp [consistent, hst] at h
    | other s => simp [consistent, hst] at h
  · cases old with
    | none => simp [consistent, hst] at h
    | some o =>
      simp only [consistent, hst] at h
      have hcond : ¬(st.st_size ≠ o.st_size ∨ st.st_mtime ≠ o.st_mtime) := by
        push_neg
        exact ⟨h.1.symm, h.2.symm⟩
      simp [find_changed_step, hst, if_neg hcond]

theorem find_changed_aux_all_consistent (fs : FileSystemCache) :
    ∀ (l : List String) (m : FDMap) (c c' : Finset String) (m' : FDMap),
    find_changed_aux fs l m c = .ok (c', m') →
    ∀ p ∈ l, consistent fs p ((FDMap.find m' p).getD none) := by
  intro l
  induction l with
  | nil => intro m c c' m' _ p hp; exact absurd hp (List.not_mem_nil p)
  | cons q rest ih =>
    intro m c c' m' h p hp
    rcases hstep : find_changed_step fs q ((FDMap.find m q).getD none) with v | v | _ | e <;>
      rw [find_changed_aux, hstep] at h
    · by_cases hpr : p ∈ rest
      · exact ih _ _ _ _ h p hpr
      · have hpq : p = q := by
          cases List.mem_cons.mp hp with
          | inl hh => exact hh
          | inr hh => exact absurd hh hpr
        subst hpq
        obtain ⟨h1, _⟩ := find_changed_aux_skip fs p rest hpr _ _ _ _ h
        rw [h1, FDMap.find_set, if_pos rfl]
        exact (find_changed_step_consistent fs p _).1 v hstep
    · by_cases hpr : p ∈ rest
      · exact ih _ _ _ _ h p hpr
      · have hpq : p = q := by
          cases List.mem_cons.mp hp with
          | inl hh => exact hh
          | inr hh => exact absurd hh hpr
        subst hpq
        obtain ⟨h1, _⟩ := find_changed_aux_skip fs p rest hpr _ _ _ _ h
        rw [h1, FDMap.find_set, if_pos rfl]
        exact (find_changed_step_consistent fs p _).2.1 v hstep
    · by_cases hpr : p ∈ rest
      · exact ih _ _ _ _ h p hpr
      · have hpq : p = q := by
          cases List.mem_cons.mp hp with
          | inl hh => exact hh
          | inr hh => exact absurd hh hpr
        subst hpq
        obtain ⟨h1, _⟩ := find_changed_aux_skip fs p rest hpr _ _ _ _ h
        rw [h1]
        exact (find_changed_step_consistent fs p _).2.2 hstep
    · exact Except.noConfusion h

theorem find_changed_aux_of_all_consistent (fs : FileSystemCache) :
    ∀ (l : List String) (m : FDMap) (c : Finset String),
    (∀ p ∈ l, consistent fs p ((FDMap.find m p).getD none)) →
    find_changed_aux fs l m c = .ok (c, m) := by
  intro l
  induction l with
  | nil => intro m c _; rfl
  | cons q rest ih =>
    intro m c hcons
    have hq : find_changed_step fs q ((FDMap.find m q).getD none) = .noop :=
      consistent_step_noop fs q _ (hcons q (List.mem_cons_self q rest))
    rw [find_changed_aux, hq]
    exact ih m c (fun p hp => hcons p (List.mem_cons_of_mem q hp))

/-! ### Bridging find_changed to the loop -/

theorem find_changed_ok_elim (fs : FileSystemCache) (w : FileSystemWatcher)
    (c : Finset String) (w' : FileSystemWatcher)
    (h : find_changed fs w = .ok (c, w')) :
    find_changed_aux fs w._paths w._file_data ∅ = .ok (c, w'._file_data) ∧
    w'._paths = w._paths := by
  cases haux : find_changed_aux fs w._paths w._file_data ∅ with
  | error em =>
    obtain ⟨e0, m0⟩ := em
    rw [find_changed, haux] at h
    exact Except.noConfusion h
  | ok cm =>
    obtain ⟨c0, m0⟩ := cm
    rw [find_changed, haux] at h
    simp only [Except.ok.injEq, Prod.mk.injEq] at h
    obtain ⟨hc, hw⟩ := h
    subst hc
    subst hw
    exact ⟨rfl, rfl⟩

theorem find_changed_err_elim (fs : FileSystemCache) (w : FileSystemWatcher)
    (e : FsError) (we : FileSystemWatcher)
    (h : find_changed fs w = .error (e, we)) :
    find_changed_aux fs w._paths w._file_data ∅ = .error (e, we._file_data) ∧
    we._paths = w._paths := by
  cases haux : find_changed_aux fs w._paths w._file_data ∅ with
  | ok cm =>
    obtain ⟨c0, m0⟩ := cm
    rw [find_changed, haux] at h
    exact Except.noConfusion h
  | error em =>
    obtain ⟨e0, m0⟩ := em
    rw [find_changed, haux] at h
    simp only [Except.error.injEq, Prod.mk.injEq] at h
    obtain ⟨he, hw⟩ := h
    subst he
    subst hw
    exact ⟨rfl, rfl⟩

/-! ### add_watched_paths and remove_watched_paths: effect on state -/

theorem add_foldl_find (P : List String) :
    ∀ (ps : List String) (m : FDMap) (x : String),
    FDMap.find (ps.foldl (fun m p => if p ∈ P then m else FDMap.set m p none) m) x =
      if x ∈ ps ∧ x ∉ P then some none else FDMap.find m x := by
  intro ps
  induction ps with
  | nil => intro m x; simp
  | cons q rest ih =>
    intro m x
    rw [List.foldl_cons, ih]
    by_cases hq : q ∈ P
    · rw [if_pos hq]
      by_cases hc : x ∈ rest ∧ x ∉ P
      · rw [if_pos hc, if_pos ⟨List.mem_cons_of_mem q hc.1, hc.2⟩]
      · rw [if_neg hc]
        by_cases hc' : x ∈ q :: rest ∧ x ∉ P
        · exfalso
          rcases List.mem_cons.mp hc'.1 with hxq | hxr
          · exact hc'.2 (hxq ▸ hq)
          · exact hc ⟨hxr, hc'.2⟩
        · rw [if_neg hc']
    · rw [if_neg hq]
      by_cases hc : x ∈ rest ∧ x ∉ P
      · rw [if_pos hc, if_pos ⟨List.mem_cons_of_mem q hc.1, hc.2⟩]
      · rw [if_neg hc, FDMap.find_set]
        by_cases hxq : x = q
        · rw [if_pos hxq, if_pos ⟨hxq ▸ List.mem_cons_self q rest, hxq ▸ hq⟩]
        · rw [if_neg hxq]
          by_cases hc' : x ∈ q :: rest ∧ x ∉ P
          · exfalso
            rcases List.mem_cons.mp hc'.1 with h1 | h2
            · exact hxq h1
            · exact hc ⟨h2, hc'.2⟩
          · rw [if_neg hc']

theorem remove_foldl_find :
    ∀ (ps : List String) (m : FDMap) (x : String),
    FDMap.find (ps.foldl (fun m p => FDMap.erase m p) m) x =
      if x ∈ ps then none else FDMap.find m x := by
  intro ps
  induction ps with
  | nil => intro m x; simp
  | cons q rest ih =>
    intro m x
    rw [List.foldl_cons, ih, FDMap.find_erase]
    by_cases hxr : x ∈ rest
    · rw [if_pos hxr, if_pos (List.mem_cons_of_mem q hxr)]
    · rw [if_neg hxr]
      by_cases hxq : x = q
      · rw [if_pos hxq, if_pos (hxq ▸ List.mem_cons_self q rest)]
      · have hx : x ∉ q :: rest := by
          intro hh
          rcases List.mem_cons.mp hh with h1 | h2
          · exact hxq h1
          · exact hxr h2
        rw [if_neg hxq, if_neg hx]

theorem mem_add_paths (w : FileSystemWatcher) (ps : List String) (x : String) :
    x ∈ (add_watched_paths w ps)._paths ↔ x ∈ w._paths ∨ x ∈ ps := by
  simp only [add_watched_paths, List.mem_append, List.mem_dedup, List.mem_filter,
    decide_eq_true_eq]
  by_cases h : x ∈ w._paths <;> simp [h]

theorem add_paths_nodup (w : FileSystemWatcher) (ps : List String)
    (h : w._paths.Nodup) : (add_watched_paths w ps)._paths.Nodup := by
  simp only [add_watched_paths]
  refine List.Nodup.append h (List.nodup_dedup _) ?_
  intro x hx hx'
  rw [List.mem_dedup, List.mem_filter] at hx'
  exact absurd hx (by simpa using hx'.2)

theorem mem_remove_paths (w : FileSystemWatcher) (ps : List String) (x : String) :
    x ∈ (remove_watched_paths w ps)._paths ↔ x ∈ w._paths ∧ x ∉ ps := by
  simp [remove_watched_paths, List.mem_filter]

theorem remove_paths_nodup (w : FileSystemWatcher) (ps : List String)
    (h : w._paths.Nodup) : (remove_watched_paths w ps)._paths.Nodup :=
  List.Nodup.filter _ h

/-! ### Watcher-level corollaries of the foldl lemmas -/

theorem add_fd_find (w : FileSystemWatcher) (ps : List String) (x : String) :
    FDMap.find (add_watched_paths w ps)._file_data x =
      if x ∈ ps ∧ x ∉ w._paths then some none else FDMap.find w._file_data x :=
  add_foldl_find w._paths ps w._file_data x

theorem remove_fd_find (w : FileSystemWatcher) (ps : List String) (x : String) :
    FDMap.find (remove_watched_paths w ps)._file_data x =
      if x ∈ ps then none else FDMap.find w._file_data x :=
  remove_foldl_find ps w._file_data x

/-! ### The claims -/

/-- Claim C1: for every watched path p whose snapshot is Present and whose
stat succeeds with a size or mtime differing from the snapshot, a completed
find_changed pass unconditionally refreshes the snapshot to
Present(currentSize, currentModTime, currentHash) and reports p exactly when
the current size differs from the old size or the current hash differs from
the old hash; a pure mtime-only change with identical size and hash is not
reported although the snapshot is still refreshed. -/
theorem fswatcher_C1 (fs : FileSystemCache) (w : FileSystemWatcher)
    (p : String) (o : FileData) (st : StatResult) (h : String)
    (hnd : w._paths.Nodup) (hp : p ∈ w._paths)
    (hold : FDMap.find w._file_data p = some (some o))
    (hst : fs.stat p = .ok st)
    (hdiff : st.st_size ≠ o.st_size ∨ st.st_mtime ≠ o.st_mtime)
    (hmd5 : fs.md5 p = .ok h)
    (c : Finset String) (w' : FileSystemWatcher)
    (hrun : find_changed fs w = .ok (c, w')) :
    FDMap.find w'._file_data p =
      some (some { st_mtime := st.st_mtime, st_size := st.st_size, md5 := h }) ∧
    (p ∈ c ↔ (st.st_size ≠ o.st_size ∨ h ≠ o.md5)) := by
  have hupd : _update fs p =
      .ok { st_mtime := st.st_mtime, st_size := st.st_size, md5 := h } := by
    rw [_update, hst, hmd5]
  have hgetD : (FDMap.find w._file_data p).getD none = some o := by rw [hold]; rfl
  obtain ⟨haux, hpaths⟩ := find_changed_ok_elim fs w c w' hrun
  obtain ⟨A, B, C, D⟩ := find_changed_aux_process fs p w._paths hnd hp _ _ _ _ haux
  rw [hgetD] at A B C D
  by_cases hrep : st.st_size ≠ o.st_size ∨ h ≠ o.md5
  · have hstep : find_changed_step fs p (some o) =
        .report (some { st_mtime := st.st_mtime, st_size := st.st_size, md5 := h }) := by
      simp only [find_changed_step, hst, hmd5, hupd, if_pos hdiff, if_pos hrep]
    obtain ⟨h1, h2⟩ := A _ hstep
    exact ⟨h1, by simp [h2, hrep]⟩
  · have hstep : find_changed_step fs p (some o) =
        .writeOnly (some { st_mtime := st.st_mtime, st_size := st.st_size, md5 := h }) := by
      simp only [find_changed_step, hst, hmd5, hupd, if_pos hdiff, if_neg hrep]
    obtain ⟨h1, h2⟩ := B _ hstep
    refine ⟨h1, ?_⟩
    rw [h2]
    simp [hrep]

/-- Witness for C1 on closed inputs: the file at pA was touched (mtime 0 to
5) and edited in place at the same size (digest hash1 to hash2), so the poll
reports it and refreshes the snapshot. -/
theorem fswatcher_C1_witness :
    FDMap.find wNew._file_data pA =
      some (some { st_mtime := stA.st_mtime, st_size := stA.st_size, md5 := hash2 }) ∧
    (pA ∈ ({pA} : Finset String) ↔ (stA.st_size ≠ fdOld.st_size ∨ hash2 ≠ fdOld.md5)) :=
  fswatcher_C1 fsA wOld pA fdOld stA hash2 (by decide) (by decide) (by decide)
    (by decide) (by decide) (by decide) {pA} wNew (by decide)

/-- Claim C2: for every watched path p whose snapshot is Present and whose
stat succeeds with size and mtime both equal to the snapshot's, a completed
find_changed pass does not report p, leaves p's snapshot unchanged, and the
per-path processing issues zero content-hash queries — even if the actual
content hash differs from the stored one. -/
theorem fswatcher_C2 (fs : FileSystemCache) (w : FileSystemWatcher)
    (p : String) (o : FileData) (st : StatResult)
    (hnd : w._paths.Nodup) (hp : p ∈ w._paths)
    (hold : FDMap.find w._file_data p = some (some o))
    (hst : fs.stat p = .ok st)
    (hsize : st.st_size = o.st_size) (hmtime : st.st_mtime = o.st_mtime)
    (c : Finset String) (w' : FileSystemWatcher)
    (hrun : find_changed fs w = .ok (c, w')) :
    p ∉ c ∧ FDMap.find w'._file_data p = some (some o) ∧
    (find_changed_step_counted fs p (some o)).2.2 = 0 := by
  have hcond : ¬(st.st_size ≠ o.st_size ∨ st.st_mtime ≠ o.st_mtime) := by
    push_neg
    exact ⟨hsize, hmtime⟩
  have hgetD : (FDMap.find w._file_data p).getD none = some o := by rw [hold]; rfl
  obtain ⟨haux, hpaths⟩ := find_changed_ok_elim fs w c w' hrun
  obtain ⟨A, B, C, D⟩ := find_changed_aux_process fs p w._paths hnd hp _ _ _ _ haux
  rw [hgetD] at A B C D
  have hstep : find_changed_step fs p (some o) = .noop := by
    simp only [find_changed_step, hst, if_neg hcond]
  obtain ⟨h1, h2⟩ := C hstep
  refine ⟨?_, ?_, ?_⟩
  · rw [h2]; exact Finset.not_mem_empty p
  · rw [h1, hold]
  · simp only [find_changed_step_counted, hst, if_neg hcond]

/-- Witness for C2 on closed inputs: pA's metadata matches the snapshot, so
the poll skips it without hashing. -/
theorem fswatcher_C2_witness :
    pA ∉ (∅ : Finset String) ∧ FDMap.find wOld._file_data pA = some (some fdOld) ∧
    (find_changed_step_counted fsSame pA (some fdOld)).2.2 = 0 :=
  fswatcher_C2 fsSame wOld pA fdOld stSame (by decide) (by decide) (by decide)
    (by decide) (by decide) (by decide) ∅ wOld (by decide)

/-- Claim C3: for every watched path whose stat fails with the not-found
condition, the per-path processing never aborts the pass (the not-found
error is handled locally); on a completed pass the path is reported exactly
when its snapshot was Present, and its snapshot ends Absent (a Present
snapshot is cleared, an Absent one stays Absent). -/
theorem fswatcher_C3 (fs : FileSystemCache) (w : FileSystemWatcher)
    (p : String) (old : Option FileData)
    (hnd : w._paths.Nodup) (hp : p ∈ w._paths)
    (hold : FDMap.find w._file_data p = some old)
    (hst : fs.stat p = .error .fileNotFound) :
    (∀ e, find_changed_step fs p old ≠ .fail e) ∧
    (∀ c w', find_changed fs w = .ok (c, w') →
      (p ∈ c ↔ old ≠ none) ∧ FDMap.find w'._file_data p = some none) := by
  have hgetD : (FDMap.find w._file_data p).getD none = old := by rw [hold]; rfl
  cases old with
  | none =>
    have hstep : find_changed_step fs p none = .noop := by
      simp only [find_changed_step, hst]
    refine ⟨?_, ?_⟩
    · intro e he; rw [hstep] at he; exact StepResult.noConfusion he
    · intro c w' hrun
      obtain ⟨haux, hpaths⟩ := find_changed_ok_elim fs w c w' hrun
      obtain ⟨A, B, C, D⟩ := find_changed_aux_process fs p w._paths hnd hp _ _ _ _ haux
      rw [hgetD] at A B C D
      obtain ⟨h1, h2⟩ := C hstep
      refine ⟨?_, ?_⟩
      · rw [h2]; simp
      · rw [h1, hold]
  | some o =>
    have hstep : find_changed_step fs p (some o) = .report none := by
      simp only [find_changed_step, hst]
    refine ⟨?_, ?_⟩
    · intro e he; rw [hstep] at he; exact StepResult.noConfusion he
    · intro c w' hrun
      obtain ⟨haux, hpaths⟩ := find_changed_ok_elim fs w c w' hrun
      obtain ⟨A, B, C, D⟩ := find_changed_aux_process fs p w._paths hnd hp _ _ _ _ haux
      rw [hgetD] at A B C D
      obtain ⟨h1, h2⟩ := A none hstep
      exact ⟨by simp [h2], h1⟩

/-- Witness for C3 on closed inputs: pA disappears while its snapshot is
Present, so the poll reports it once and clears the snapshot, raising
nothing. -/
theorem fswatcher_C3_witness :
    (∀ e, find_changed_step fsGone pA (some fdOld) ≠ .fail e) ∧
    ((pA ∈ ({pA} : Finset String) ↔ some fdOld ≠ none) ∧
      FDMap.find wAbsent._file_data pA = some none) :=
  ⟨(fswatcher_C3 fsGone wOld pA (some fdOld) (by decide) (by decide) (by decide)
      (by decide)).1,
   (fswatcher_C3 fsGone wOld pA (some fdOld) (by decide) (by decide) (by decide)
      (by decide)).2 {pA} wAbsent (by decide)⟩

/-- Claim C4: a path p on which stat succeeds, newly added via
add_watched_paths, is reported by the next completed find_changed, which
also records Present(currentSize, currentModTime, currentHash); with no
further filesystem change the following poll returns the empty set and the
same state, so p is never reported again. -/
theorem fswatcher_C4 (fs : FileSystemCache) (w : FileSystemWatcher)
    (ps : List String) (p : String) (st : StatResult) (h : String)
    (hnd : w._paths.Nodup) (hnew : p ∉ w._paths) (hpp : p ∈ ps)
    (hst : fs.stat p = .ok st) (hmd5 : fs.md5 p = .ok h)
    (c1 : Finset String) (w1 : FileSystemWatcher)
    (hrun : find_changed fs (add_watched_paths w ps) = .ok (c1, w1)) :
    p ∈ c1 ∧
    FDMap.find w1._file_data p =
      some (some { st_mtime := st.st_mtime, st_size := st.st_size, md5 := h }) ∧
    find_changed fs w1 = .ok (∅, w1) := by
  have hnd0 : (add_watched_paths w ps)._paths.Nodup := add_paths_nodup w ps hnd
  have hp0 : p ∈ (add_watched_paths w ps)._paths :=
    (mem_add_paths w ps p).mpr (Or.inr hpp)
  have hold : FDMap.find (add_watched_paths w ps)._file_data p = some none := by
    rw [add_fd_find, if_pos ⟨hpp, hnew⟩]
  have hupd : _update fs p =
      .ok { st_mtime := st.st_mtime, st_size := st.st_size, md5 := h } := by
    rw [_update, hst, hmd5]
  have hstep : find_changed_step fs p none =
      .report (some { st_mtime := st.st_mtime, st_size := st.st_size, md5 := h }) := by
    simp only [find_changed_step, hst, hupd]
  have hgetD : (FDMap.find (add_watched_paths w ps)._file_data p).getD none = none := by
    rw [hold]; rfl
  obtain ⟨haux, hpaths⟩ := find_changed_ok_elim fs (add_watched_paths w ps) c1 w1 hrun
  obtain ⟨A, B, C, D⟩ :=
    find_changed_aux_process fs p (add_watched_paths w ps)._paths hnd0 hp0 _ _ _ _ haux
  rw [hgetD] at A B C D
  obtain ⟨h1, h2⟩ := A _ hstep
  have hcons := find_changed_aux_all_consistent fs (add_watched_paths w ps)._paths
    _ _ _ _ haux
  have haux2 : find_changed_aux fs w1._paths w1._file_data ∅ = .ok (∅, w1._file_data) := by
    rw [hpaths]
    exact find_changed_aux_of_all_consistent fs (add_watched_paths w ps)._paths
      w1._file_data ∅ hcons
  refine ⟨h2, h1, ?_⟩
  simp only [find_changed, haux2]

/-- Witness for C4 on closed inputs: pA is added to a fresh watcher while it
exists on disk; the first poll reports it and records its snapshot, the
second poll reports nothing. -/
theorem fswatcher_C4_witness :
    pA ∈ ({pA} : Finset String) ∧
    FDMap.find wNew._file_data pA =
      some (some { st_mtime := stA.st_mtime, st_size := stA.st_size, md5 := hash2 }) ∧
    find_changed fsA wNew = .ok (∅, wNew) :=
  fswatcher_C4 fsA FileSystemWatcher.init [pA] pA stA hash2 (by decide) (by decide)
    (by decide) (by decide) (by decide) {pA} wNew (by decide)

/-- Claim C5 (amended): keys(snapshotMap) == watchedSet holds for a freshly
constructed watcher and is preserved by add_watched_paths,
remove_watched_paths and a completed find_changed, and by set_file_data when
the path is already watched; set_file_data on an unwatched path breaks the
invariant (see the counterexample). -/
theorem fswatcher_C5 :
    lockstep FileSystemWatcher.init ∧
    (∀ w, lockstep w →
      (∀ ps, lockstep (add_watched_paths w ps)) ∧
      (∀ ps, lockstep (remove_watched_paths w ps)) ∧
      (∀ p d, p ∈ w._paths → lockstep (set_file_data w p d)) ∧
      (∀ fs c w', find_changed fs w = .ok (c, w') → lockstep w')) := by
  constructor
  · rfl
  intro w hw
  have hmem : ∀ x, x ∈ FDMap.keys w._file_data ↔ x ∈ w._paths := by
    intro x
    rw [hw, List.mem_toFinset]
  refine ⟨?_, ?_, ?_, ?_⟩
  · intro ps
    refine Finset.ext (fun x => ?_)
    rw [FDMap.mem_keys, add_fd_find, List.mem_toFinset, mem_add_paths]
    have hx := hmem x
    rw [FDMap.mem_keys] at hx
    by_cases hc : x ∈ ps ∧ x ∉ w._paths
    · simp [hc, hc.1]
    · rw [if_neg hc, hx]
      by_cases hp : x ∈ w._paths
      · simp [hp]
      · simp only [hp, false_or, false_iff]
        intro hps
        exact hc ⟨hps, hp⟩
  · intro ps
    refine Finset.ext (fun x => ?_)
    rw [FDMap.mem_keys, remove_fd_find, List.mem_toFinset, mem_remove_paths]
    have hx := hmem x
    rw [FDMap.mem_keys] at hx
    by_cases hc : x ∈ ps
    · simp [hc]
    · rw [if_neg hc, hx]
      simp [hc]
  · intro p d hp
    refine Finset.ext (fun x => ?_)
    have hfd : (set_file_data w p d)._file_data = FDMap.set w._file_data p (some d) := rfl
    have hpth : (set_file_data w p d)._paths = w._paths := rfl
    rw [hfd, hpth, FDMap.mem_keys_set, List.mem_toFinset]
    constructor
    · intro hh
      rcases hh with hh | hh
      · exact hh ▸ hp
      · exact (hmem x).mp hh
    · intro hh
      exact Or.inr ((hmem x).mpr hh)
  · intro fs c w' hrun
    obtain ⟨haux, hpaths⟩ := find_changed_ok_elim fs w c w' hrun
    refine Finset.ext (fun x => ?_)
    rw [hpaths, ← hw]
    constructor
    · intro hh
      rcases find_changed_aux_keys_bound fs w._paths _ _ _ _ haux x hh with hk | hl
      · exact hk
      · exact (hmem x).mpr hl
    · intro hh
      exact find_changed_aux_keys_mono fs w._paths _ _ _ _ haux x hh

/-- Counterexample to C5 as stated: set_file_data is a public operation, the
fresh watcher satisfies the invariant, yet seeding data for the unwatched
path pA leaves a snapshot key with no watched-set member. -/
theorem fswatcher_C5_counterexample :
    lockstep FileSystemWatcher.init ∧
    ¬ lockstep (set_file_data FileSystemWatcher.init pA fdOld) := by
  decide

/-- Witness for C5 (amended) on closed inputs: all four preserved operations
applied to the lock-step watcher wOld. -/
theorem fswatcher_C5_witness :
    lockstep (add_watched_paths wOld [pB]) ∧
    lockstep (remove_watched_paths wOld [pA]) ∧
    lockstep (set_file_data wOld pA fdNew) ∧
    lockstep wNew :=
  ⟨(fswatcher_C5.2 wOld (by decide)).1 [pB],
   (fswatcher_C5.2 wOld (by decide)).2.1 [pA],
   (fswatcher_C5.2 wOld (by decide)).2.2.1 pA fdNew (by decide),
   (fswatcher_C5.2 wOld (by decide)).2.2.2 fsA {pA} wNew (by decide)⟩

/-- Claim C6: find_changed is stabilizing — after a completed call, an
immediately following call against the same accessor answers returns the
empty set and leaves the watcher (watched set and every snapshot)
unchanged.  The accessor is a pure value here, so identical answers on the
second call are exactly a second call against the same accessor. -/
theorem fswatcher_C6 (fs : FileSystemCache) (w : FileSystemWatcher)
    (c : Finset String) (w' : FileSystemWatcher)
    (hrun : find_changed fs w = .ok (c, w')) :
    find_changed fs w' = .ok (∅, w') := by
  obtain ⟨haux, hpaths⟩ := find_changed_ok_elim fs w c w' hrun
  have hcons := find_changed_aux_all_consistent fs w._paths _ _ _ _ haux
  have haux2 : find_changed_aux fs w'._paths w'._file_data ∅ = .ok (∅, w'._file_data) := by
    rw [hpaths]
    exact find_changed_aux_of_all_consistent fs w._paths w'._file_data ∅ hcons
  simp only [find_changed, haux2]

/-- Witness for C6 on closed inputs: after the poll that reports pA's edit,
the next poll against the same accessor reports nothing and changes
nothing. -/
theorem fswatcher_C6_witness : find_changed fsA wNew = .ok (∅, wNew) :=
  fswatcher_C6 fsA wOld {pA} wNew (by decide)

/-- Claim C7: a completed find_changed returns a subset of the watched set
(a set, hence without duplicates) and leaves the watched set unchanged, so a
never-added path is never reported; and a removed path is no longer in the
watched set, so no later poll reports it until it is re-added. -/
theorem fswatcher_C7 :
    (∀ fs w c w', find_changed fs w = .ok (c, w') →
      (∀ x ∈ c, x ∈ w._paths) ∧ w'._paths = w._paths ∧
      (∀ p, p ∉ w._paths → p ∉ c)) ∧
    (∀ w ps p, p ∈ ps → p ∉ (remove_watched_paths w ps)._paths) := by
  constructor
  · intro fs w c w' hrun
    obtain ⟨haux, hpaths⟩ := find_changed_ok_elim fs w c w' hrun
    have hsub : ∀ x ∈ c, x ∈ w._paths := by
      intro x hx
      rcases find_changed_aux_subset fs w._paths _ _ _ _ haux x hx with he | hl
      · exact absurd he (Finset.not_mem_empty x)
      · exact hl
    exact ⟨hsub, hpaths, fun p hp hpc => hp (hsub p hpc)⟩
  · intro w ps p hpp hmem
    exact ((mem_remove_paths w ps p).mp hmem).2 hpp

/-- Witness for C7 on closed inputs: the changed set of a poll over wOld is
inside its watched set, pB (never added) is not reported, and pA is gone
from the watched set after removal. -/
theorem fswatcher_C7_witness :
    ((∀ x ∈ ({pA} : Finset String), x ∈ wOld._paths) ∧ wNew._paths = wOld._paths ∧
      (∀ p, p ∉ wOld._paths → p ∉ ({pA} : Finset String))) ∧
    pA ∉ (remove_watched_paths wOld [pA])._paths :=
  ⟨fswatcher_C7.1 fsA wOld {pA} wNew (by decide),
   fswatcher_C7.2 wOld [pA] pA (by decide)⟩

/-- Claim C8: an aborted find_changed pass leaves the watched set unchanged
and carries exactly the error some watched path's processing raised (the
error is propagated unmodified), with that path's snapshot still at its
pre-poll value — a snapshot is replaced whole by `_update` or not at all;
conversely a pass that completes had no path whose processing raised, so a
non-not-found accessor failure always aborts the poll rather than being
swallowed. -/
theorem fswatcher_C8 (fs : FileSystemCache) (w : FileSystemWatcher)
    (hnd : w._paths.Nodup) :
    (∀ e we, find_changed fs w = .error (e, we) →
      we._paths = w._paths ∧
      ∃ p, p ∈ w._paths ∧
        find_changed_step fs p ((FDMap.find w._file_data p).getD none) = .fail e ∧
        FDMap.find we._file_data p = FDMap.find w._file_data p) ∧
    (∀ c w', find_changed fs w = .ok (c, w') →
      ∀ p, p ∈ w._paths → ∀ e,
        find_changed_step fs p ((FDMap.find w._file_data p).getD none) ≠ .fail e) := by
  constructor
  · intro e we hrun
    obtain ⟨haux, hpaths⟩ := find_changed_err_elim fs w e we hrun
    exact ⟨hpaths, find_changed_aux_error_spec fs w._paths hnd _ _ _ _ haux⟩
  · intro c w' hrun p hp
    obtain ⟨haux, hpaths⟩ := find_changed_ok_elim fs w c w' hrun
    exact (find_changed_aux_process fs p w._paths hnd hp _ _ _ _ haux).2.2.2

/-- Witness for C8 on closed inputs: hashing pA fails with an I/O error;
the pass aborts with that error and pA's snapshot is untouched. -/
theorem fswatcher_C8_witness :
    wOld._paths = wOld._paths ∧
    ∃ p, p ∈ wOld._paths ∧
      find_changed_step fsErr p ((FDMap.find wOld._file_data p).getD none) = .fail eIO ∧
      FDMap.find wOld._file_data p = FDMap.find wOld._file_data p :=
  (fswatcher_C8 fsErr wOld (by decide)).1 eIO wOld (by decide)

/-- Claim C9 (amended): the instrumented definitions compute the same
results as the plain ones; a `_update` invocation that succeeds issues
exactly one stat query and one hash query; and per watched path per poll the
processing issues at most two stat queries and at most two hash queries (the
metadata-changed branch hashes once, then `_update` stats and hashes again,
so the claimed bound of one of each does not hold — see the
counterexample). -/
theorem fswatcher_C9 (fs : FileSystemCache) (p : String) :
    ((_update_counted fs p).1 = _update fs p) ∧
    (∀ fd, (_update_counted fs p).1 = .ok fd → (_update_counted fs p).2 = (1, 1)) ∧
    (∀ old, (find_changed_step_counted fs p old).1 = find_changed_step fs p old ∧
      (find_changed_step_counted fs p old).2.1 ≤ 2 ∧
      (find_changed_step_counted fs p old).2.2 ≤ 2) := by
  rcases hst : fs.stat p with e | st
  · refine ⟨?_, ?_, ?_⟩
    · simp only [_update_counted, _update, hst]
    · intro fd hfd
      simp only [_update_counted, hst] at hfd
      exact Except.noConfusion hfd
    · intro old
      cases e <;> cases old <;>
        simp [find_changed_step_counted, find_changed_step, hst]
  · rcases hmd5 : fs.md5 p with e2 | s
    · refine ⟨?_, ?_, ?_⟩
      · simp only [_update_counted, _update, hst, hmd5]
      · intro fd hfd
        simp only [_update_counted, hst, hmd5] at hfd
        exact Except.noConfusion hfd
      · intro old
        cases old with
        | none =>
          simp [find_changed_step_counted, find_changed_step, _update_counted,
            _update, hst, hmd5]
        | some o =>
          by_cases hcond : st.st_size ≠ o.st_size ∨ st.st_mtime ≠ o.st_mtime
          · simp [find_changed_step_counted, find_changed_step, hst, hmd5,
              if_pos hcond]
          · simp [find_changed_step_counted, find_changed_step, hst, if_neg hcond]
    · refine ⟨?_, ?_, ?_⟩
      · simp only [_update_counted, _update, hst, hmd5]
      · intro fd _
        simp only [_update_counted, hst, hmd5]
      · intro old
        cases old with
        | none =>
          simp [find_changed_step_counted, find_changed_step, _update_counted,
            _update, hst, hmd5]
        | some o =>
          by_cases hcond : st.st_size ≠ o.st_size ∨ st.st_mtime ≠ o.st_mtime
          · simp [find_changed_step_counted, find_changed_step, _update_counted,
              _update, hst, hmd5, if_pos hcond]
          · simp [find_changed_step_counted, find_changed_step, hst, if_neg hcond]

/-- Counterexample to C9 as stated: for a Present snapshot whose mtime
changed, the per-path poll work issues two stat queries and two hash
queries (the initial stat, the comparison hash, then `_update`'s own stat
and hash), exceeding the claimed at-most-one-of-each bound. -/
theorem fswatcher_C9_counterexample :
    (find_changed_step_counted fsA pA (some fdOld)).2 = (2, 2) ∧
    ¬((find_changed_step_counted fsA pA (some fdOld)).2.1 ≤ 1 ∧
      (find_changed_step_counted fsA pA (some fdOld)).2.2 ≤ 1) := by
  decide

/-- Witness for C9 (amended) on closed inputs: a successful `_update` at pA
issues exactly one stat and one hash, and the per-path counts at pA are
within the two-query bounds. -/
theorem fswatcher_C9_witness :
    (_update_counted fsA pA).2 = (1, 1) ∧
    (find_changed_step_counted fsA pA (some fdOld)).2.1 ≤ 2 ∧
    (find_changed_step_counted fsA pA (some fdOld)).2.2 ≤ 2 :=
  ⟨(fswatcher_C9 fsA pA).2.1
      { st_mtime := stA.st_mtime, st_size := stA.st_size, md5 := hash2 } (by decide),
   ((fswatcher_C9 fsA pA).2.2 (some fdOld)).2⟩

/-- Claim C10: set_file_data writes a Present snapshot for any path without
touching the watched set; for a path already watched, pre-seeding its
snapshot suppresses the first-poll report that add_watched_paths alone would
guarantee — if the next poll's stat matches the seeded size and mtime, the
path is not reported. -/
theorem fswatcher_C10 (fs : FileSystemCache) (w : FileSystemWatcher)
    (p : String) (d : FileData) (st : StatResult) :
    ((set_file_data w p d)._paths = w._paths ∧
      FDMap.find (set_file_data w p d)._file_data p = some (some d)) ∧
    (w._paths.Nodup → p ∈ w._paths → fs.stat p = .ok st →
      st.st_size = d.st_size → st.st_mtime = d.st_mtime →
      ∀ c w', find_changed fs (set_file_data w p d) = .ok (c, w') → p ∉ c) := by
  have hfd : (set_file_data w p d)._file_data = FDMap.set w._file_data p (some d) := rfl
  have hpth : (set_file_data w p d)._paths = w._paths := rfl
  constructor
  · refine ⟨hpth, ?_⟩
    rw [hfd, FDMap.find_set, if_pos rfl]
  · intro hnd hp hst hsize hmtime c w' hrun
    have hcond : ¬(st.st_size ≠ d.st_size ∨ st.st_mtime ≠ d.st_mtime) := by
      push_neg
      exact ⟨hsize, hmtime⟩
    have hnd0 : (set_file_data w p d)._paths.Nodup := hpth ▸ hnd
    have hp0 : p ∈ (set_file_data w p d)._paths := hpth ▸ hp
    have hold : FDMap.find (set_file_data w p d)._file_data p = some (some d) := by
      rw [hfd, FDMap.find_set, if_pos rfl]
    have hgetD : (FDMap.find (set_file_data w p d)._file_data p).getD none = some d := by
      rw [hold]; rfl
    have hstep : find_changed_step fs p (some d) = .noop := by
      simp only [find_changed_step, hst, if_neg hcond]
    obtain ⟨haux, hpaths⟩ := find_changed_ok_elim fs (set_file_data w p d) c w' hrun
    obtain ⟨A, B, C, D⟩ :=
      find_changed_aux_process fs p (set_file_data w p d)._paths hnd0 hp0 _ _ _ _ haux
    rw [hgetD] at A B C D
    obtain ⟨h1, h2⟩ := C hstep
    rw [h2]
    exact Finset.not_mem_empty p

/-- Witness for C10 on closed inputs: seeding pA's snapshot on the watcher
whose add left pA Absent makes the next poll (whose stat matches the seed)
report nothing. -/
theorem fswatcher_C10_witness :
    ((set_file_data wAbsent pA fdOld)._paths = wAbsent._paths ∧
      FDMap.find (set_file_data wAbsent pA fdOld)._file_data pA = some (some fdOld)) ∧
    pA ∉ (∅ : Finset String) :=
  ⟨(fswatcher_C10 fsSame wAbsent pA fdOld stSame).1,
   (fswatcher_C10 fsSame wAbsent pA fdOld stSame).2 (by decide) (by decide) (by decide)
     (by decide) (by decide) ∅ wOld (by decide)⟩
